import Mathlib

/-!
Formal model of the nmstate state-reconciliation engine.

The team interface model (`TeamRaw`, `TeamIface.port`, `TeamIface.sort_port`,
`TeamIface.remove_port`, ...) is translated from `libnmstate/ifaces/team.py`.
The merge, validation and apply/verify/rollback logic is not part of this
source tree, so those operations are modelled from the specification; each
such definition says so in its doc comment.
-/

set_option maxHeartbeats 1000000

namespace Nmstate

/-! ## Lexicographic order on strings

Python compares strings lexicographically by Unicode code point; this is the
order `list.sort(key=itemgetter("name"))` uses in `team.py`.  The Lean core
order on `String` does not reduce in the kernel, so we spell the same order
out on the underlying character lists. -/

/-- Lexicographic comparison of character lists by Unicode code point. -/
def charsLe : List Char → List Char → Bool
  | [], _ => true
  | _ :: _, [] => false
  | a :: as, b :: bs =>
    a.toNat < b.toNat || (a.toNat == b.toNat && charsLe as bs)

/-- Lexicographic order on strings by Unicode code point, as Python's `<=`. -/
def nameLe (s t : String) : Bool := charsLe s.data t.data

/-! ## Team interface model, from `libnmstate/ifaces/team.py` -/

/-- One entry of the `team.ports` list in a team interface's raw state.
`name` holds the value of the mandatory `name` key (`Team.Port.NAME`); `rest`
stands in for any further keys of the port descriptor dictionary. -/
structure TeamPort where
  name : String
  rest : Nat
deriving DecidableEq, Repr

/-- The `team` config subtree (`Team.CONFIG_SUBTREE`) of the raw state: an
optional `ports` list (`Team.PORT_SUBTREE`) plus the remaining keys. -/
structure TeamConfig where
  ports : Option (List TeamPort)
  rest : Nat
deriving DecidableEq, Repr

/-- The raw configuration dictionary of a team interface: an optional `team`
subtree plus the remaining keys (name, state, ip, ...). -/
structure TeamRaw where
  team : Option TeamConfig
  rest : Nat
deriving DecidableEq, Repr

/-- Sort key relation used by `sort_port`: Python sorts the port descriptors
with `key=itemgetter(Team.Port.NAME)`, comparing the name strings. -/
def portKeyLe (p q : TeamPort) : Prop := nameLe p.name q.name = true

instance : DecidableRel portKeyLe := fun _ _ => inferInstanceAs (Decidable (_ = true))

namespace TeamIface

/-- `self.raw.get(Team.CONFIG_SUBTREE, {}).get(Team.PORT_SUBTREE, [])`:
the raw port descriptor list, defaulting to `[]` when either key is absent. -/
def portEntries (r : TeamRaw) : List TeamPort :=
  match r.team with
  | none => []
  | some c => c.ports.getD []

/-- The `port` property: the list of port names. -/
def port (r : TeamRaw) : List String :=
  (portEntries r).map TeamPort.name

/-- The `is_controller` property: always true for a team interface. -/
def is_controller (_ : TeamRaw) : Bool := true

/-- The `is_virtual` property: always true for a team interface. -/
def is_virtual (_ : TeamRaw) : Bool := true

/-- `sort_port`: if the port list is non-empty (`if self.port:`), sort the
raw port descriptor list in place by port name.  Python's `list.sort` is a
stable ascending sort by the key; `List.insertionSort` is extensionally the
same function (stable, ascending). -/
def sort_port (r : TeamRaw) : TeamRaw :=
  if (port r).isEmpty then r
  else
    match r.team with
    | none => r
    | some c =>
      { r with team := some { c with ports := some ((c.ports.getD []).insertionSort portKeyLe) } }

/-- `remove_port`: if the port list is non-empty, keep only the descriptors
whose name differs from `port_name`; then `sort_port` (called unconditionally
at the end of the method). -/
def remove_port (r : TeamRaw) (port_name : String) : TeamRaw :=
  let r1 :=
    if (port r).isEmpty then r
    else
      match r.team with
      | none => r
      | some c =>
        { r with team := some { c with ports := some ((c.ports.getD []).filter fun s => s.name != port_name) } }
  sort_port r1

/-- Build a team raw state whose port list is `l`, leaving every other part
of `r` unchanged (creating the subtrees when absent). -/
def setPorts (r : TeamRaw) (l : List TeamPort) : TeamRaw :=
  match r.team with
  | none => ⟨some ⟨some l, 0⟩, r.rest⟩
  | some c => ⟨some ⟨some l, c.rest⟩, r.rest⟩

end TeamIface

/-- Team raw state with an unsorted two-entry port list. -/
def rawUnsorted : TeamRaw := ⟨some ⟨some [⟨"b", 0⟩, ⟨"a", 0⟩], 0⟩, 0⟩

/-- Team raw state with a name-sorted two-entry port list. -/
def rawSorted : TeamRaw := ⟨some ⟨some [⟨"a", 0⟩, ⟨"b", 0⟩], 0⟩, 0⟩

/-- Two team raw states that differ only in the order of their port entries;
both entries carry the same (duplicate) name but different other keys. -/
def rawDupA : TeamRaw := ⟨some ⟨some [⟨"a", 0⟩, ⟨"a", 1⟩], 0⟩, 0⟩

/-- Reordering of `rawDupA`'s port list. -/
def rawDupB : TeamRaw := ⟨some ⟨some [⟨"a", 1⟩, ⟨"a", 0⟩], 0⟩, 0⟩

/-- Team raw state used as the surrounding record in witnesses. -/
def rawBase : TeamRaw := ⟨some ⟨some [], 3⟩, 7⟩

/-- Team raw state with a `team` subtree but no `ports` key. -/
def rawNoPorts : TeamRaw := ⟨some ⟨none, 2⟩, 5⟩

/-! ## Merger/Differ field semantics

The Merger/Differ code is not part of this source tree (only its integration
tests are), so the per-field merge rule is modelled from the specification
(§4.2): on MODIFY, fields not mentioned in desired are carried over unchanged
from current. -/

/-- Modelled from the spec: the per-interface fields the merge rule operates
on (state, mtu, vlan id, base-iface, reorder-headers, peer, ...). -/
inductive IfaceField
  | fstate
  | mtu
  | vlanId
  | baseIface
  | reorderHeaders
  | peer
  | acceptAllMac
deriving DecidableEq, Repr

/-- Modelled from the spec: a desired-state interface document; each field is
either specified or omitted.  Field values are abstracted as naturals. -/
structure DesiredIface where
  name : String
  fields : IfaceField → Option Nat

/-- Modelled from the spec: a current-state interface record (backend
sourced, complete): every field carries a value. -/
structure CurrentIface where
  name : String
  fields : IfaceField → Nat

/-- Modelled from the spec (§4.2 MODIFY rule): fields not mentioned in the
desired document are carried over unchanged from current. -/
def mergeIfaceFields (d : DesiredIface) (c : CurrentIface) : CurrentIface :=
  ⟨c.name, fun f => (d.fields f).getD (c.fields f)⟩

/-- Modelled from the spec: merge a (possibly partial) desired state onto the
current state; interfaces not mentioned in desired are left untouched. -/
def mergeState (desired : List DesiredIface) (current : List CurrentIface) :
    List CurrentIface :=
  current.map fun c =>
    match desired.find? (fun d => d.name == c.name) with
    | some d => mergeIfaceFields d c
    | none => c

/-- Concrete current record for the C1 witness. -/
def currentEth0 : CurrentIface := ⟨"eth0", fun _ => 5⟩

/-- Concrete desired document specifying only the mtu field. -/
def desiredEth0 : DesiredIface :=
  ⟨"eth0", fun g => if g = IfaceField.mtu then some 9000 else none⟩

/-! ## Reconciliation pipeline

The Merger/Differ, Validator and Apply Orchestrator code is not part of this
source tree (only its integration tests are); the following pipeline is
modelled from the specification (§4.2, §4.3, §4.5, §6, §7). -/

/-- Modelled from the spec: the interface types relevant to the claims. -/
inductive VType
  | veth
  | ethernet
  | vlan
  | team
  | dummy
deriving DecidableEq, Repr

/-- Modelled from the spec: the interface `state` field. -/
inductive VState
  | up
  | down
  | absent
  | ignore
deriving DecidableEq, Repr

/-- Modelled from the spec: one interface record of a state document: name,
type, state, optional mtu and optional veth peer. -/
structure VIface where
  name : String
  vtype : VType
  vstate : VState
  mtu : Option Nat
  peer : Option String
deriving DecidableEq, Repr

/-- Modelled from the spec: the type-specific admissible MTU minimum; the
spec fixes the ethernet/veth minimum at 68. -/
def mtuMin : VType → Nat := fun _ => 68

/-- Modelled from the spec: the type-specific admissible MTU maximum, a bound
far below 1500000. -/
def mtuMax : VType → Nat := fun _ => 65535

/-- Modelled from the spec (§4.2 MODIFY rule): per-interface merge: fields
not mentioned in desired are carried over from current. -/
def mergeVIface (d c : VIface) : VIface :=
  ⟨d.name, d.vtype, d.vstate, (d.mtu).orElse fun _ => c.mtu,
    (d.peer).orElse fun _ => c.peer⟩

/-- Modelled from the spec: merge each desired entry with the current record
of the same name, when present. -/
def mergeDesired (desired current : List VIface) : List VIface :=
  desired.map fun d =>
    match current.find? (fun c : VIface => c.name == d.name) with
    | some c => mergeVIface d c
    | none => d

/-- Modelled from the spec: the minimal implicit veth peer entry
(ethernet-compatible type, state up). -/
def minimalPeer (p : String) : VIface :=
  ⟨p, VType.ethernet, VState.up, none, none⟩

/-- Modelled from the spec (§4.2 special case): the implicit peer entry a
veth record contributes: a minimal entry for its peer name, only when that
name is not otherwise mentioned (an explicit entry takes precedence). -/
def implicitPeer (merged : List VIface) (v : VIface) : Option VIface :=
  match v.vtype, v.peer with
  | VType.veth, some p =>
    if merged.any (fun w : VIface => w.name == p) then none
    else some (minimalPeer p)
  | _, _ => none

/-- Modelled from the spec (§4.2 special case): add the implicit minimal
peer entries to the merged desired entries. -/
def expandVethPeers (merged : List VIface) : List VIface :=
  merged ++ merged.filterMap (implicitPeer merged)

/-- The merged-and-expanded entries the engine acts on for a desired state. -/
def changedIfaces (desired current : List VIface) : List VIface :=
  expandVethPeers (mergeDesired desired current)

/-- Modelled from the spec: the merged target state: the acted-on entries
plus every current interface they do not name. -/
def mergedTarget (desired current : List VIface) : List VIface :=
  changedIfaces desired current
    ++ current.filter fun c =>
        !(changedIfaces desired current).any fun v => v.name == c.name

/-- Classification of a change-set entry. -/
inductive ChangeKind
  | create
  | modify
  | delete
deriving DecidableEq, Repr

/-- One change-set entry: its classification and the final desired record. -/
structure Change where
  kind : ChangeKind
  iface : VIface
deriving DecidableEq, Repr

/-- Modelled from the spec (§4.2): classification of each acted-on entry:
state absent is a DELETE; otherwise a name present in current is a MODIFY and
a new name is a CREATE. -/
def planChanges (desired current : List VIface) : List Change :=
  (changedIfaces desired current).map fun v =>
    if v.vstate = VState.absent then ⟨ChangeKind.delete, v⟩
    else if current.any (fun c : VIface => c.name == v.name) then
      ⟨ChangeKind.modify, v⟩
    else ⟨ChangeKind.create, v⟩

/-- Modelled from the spec (§4.3 required fields / reference integrity): a
configured (non-absent) veth must carry a peer, and that peer name must
resolve in the merged target state. -/
def peerErrs (target : List VIface) (v : VIface) : List String :=
  match v.vtype, v.peer with
  | VType.veth, none =>
    if v.vstate = VState.absent then [] else ["veth requires a peer"]
  | VType.veth, some p =>
    if target.any (fun w : VIface => w.name == p) then []
    else ["veth peer does not resolve"]
  | _, _ => []

/-- Modelled from the spec (§4.3 numeric bounds): an mtu, when present, must
lie within the type's admissible range. -/
def mtuErrs (v : VIface) : List String :=
  match v.mtu with
  | some m =>
    if m < mtuMin v.vtype ∨ mtuMax v.vtype < m then ["mtu out of range"]
    else []
  | none => []

/-- Modelled from the spec (§4.3): validation of one acted-on record. -/
def validateIface (target : List VIface) (v : VIface) : List String :=
  peerErrs target v ++ mtuErrs v

/-- Modelled from the spec: validate every acted-on entry of the plan. -/
def validateState (desired current : List VIface) : List String :=
  (changedIfaces desired current).flatMap
    (validateIface (mergedTarget desired current))

/-- Modelled from the spec (§6): the abstract backend, as oracles saying
whether each apply call succeeds, whether verification converges, and
whether a rollback succeeds. -/
structure Backend where
  applyOk : Change → Bool
  verifyOk : Bool
  rollbackOk : Bool

/-- Backend calls traced by the orchestrator. -/
inductive BCall
  | checkpoint
  | applyIface (c : Change)
  | rollback
  | destroyCheckpoint
deriving DecidableEq, Repr

/-- Effect of one change on the live state: create and modify upsert the
record, delete removes it. -/
def applyChange (live : List VIface) (c : Change) : List VIface :=
  match c.kind with
  | ChangeKind.delete => live.filter fun x => x.name != c.iface.name
  | _ => c.iface :: live.filter fun x => x.name != c.iface.name

/-- Modelled from the spec (§4.5 APPLYING): issue the operations in plan
order; a failure aborts the remaining operations.  Returns the final live
state, the call trace and whether all operations succeeded. -/
def runApply (b : Backend) : List VIface → List Change → List VIface × List BCall × Bool
  | live, [] => (live, [], true)
  | live, c :: cs =>
    if b.applyOk c then
      let rest := runApply b (applyChange live c) cs
      (rest.1, BCall.applyIface c :: rest.2.1, rest.2.2)
    else (live, [BCall.applyIface c], false)

/-- Result of a reconcile call: the verified final state or a typed error. -/
inductive RResult
  | ok (final : List VIface)
  | validationError (errs : List String)
  | backendError (rolledBack : Bool)
  | verificationError (rolledBack : Bool)
  | rollbackError
deriving DecidableEq, Repr

/-- Discriminator: is the result a validation error? -/
def isValidationError : RResult → Bool
  | RResult.validationError _ => true
  | _ => false

/-- Discriminator: is the result a success? -/
def isOk : RResult → Bool
  | RResult.ok _ => true
  | _ => false

/-- Modelled from the spec (§4.5): outcome selection after the APPLYING
phase: verify, and on any failure attempt rollback to the checkpoint, which
restores the captured state when it succeeds; a failing rollback is surfaced
as the distinct rollback error. -/
def afterApply (b : Backend) (live0 live1 : List VIface) (calls : List BCall)
    (applied : Bool) : RResult × List VIface × List BCall :=
  if applied then
    if b.verifyOk then
      (RResult.ok live1, live1, calls ++ [BCall.destroyCheckpoint])
    else if b.rollbackOk then
      (RResult.verificationError true, live0, calls ++ [BCall.rollback])
    else (RResult.rollbackError, live1, calls ++ [BCall.rollback])
  else
    if b.rollbackOk then
      (RResult.backendError true, live0, calls ++ [BCall.rollback])
    else (RResult.rollbackError, live1, calls ++ [BCall.rollback])

/-- Modelled from the spec (§4.5, §7): full reconcile: plan and validate with
no backend calls; on any validation error stop before mutating; otherwise
checkpoint, apply, verify, and roll back on failure.  Returns the result,
the final live state and the backend call trace. -/
def reconcile (b : Backend) (desired live0 : List VIface) :
    RResult × List VIface × List BCall :=
  if (validateState desired live0).isEmpty then
    let r := runApply b live0 (planChanges desired live0)
    afterApply b live0 r.1 (BCall.checkpoint :: r.2.1) r.2.2
  else (RResult.validationError (validateState desired live0), live0, [])

/-- Desired veth record used in the C5 counterexample and witness. -/
def vethV1 : VIface := ⟨"v1", VType.veth, VState.up, none, some "v2"⟩

/-- All-success backend used in witnesses and counterexamples. -/
def bAllOk : Backend := ⟨fun _ => true, true, true⟩

/-- A desired veth with no peer configured. -/
def vethNoPeer : VIface := ⟨"veth1", VType.veth, VState.up, none, none⟩

/-- Existing veth record carrying a peer, as the backend reports it. -/
def curVeth1 : VIface := ⟨"veth1", VType.veth, VState.up, none, some "veth1peer"⟩

/-- The existing peer of `curVeth1`. -/
def curPeer1 : VIface := ⟨"veth1peer", VType.ethernet, VState.up, none, none⟩

/-- Desired record with an mtu below the admissible minimum, mirroring
`test_veth_invalid_mtu_smaller_than_min`. -/
def vethBadMtu : VIface := ⟨"eth1", VType.veth, VState.up, some 32, some "p1"⟩

/-- Backend whose verification and rollback both fail. -/
def bNoRollback : Backend := ⟨fun _ => true, false, false⟩

/-- A plain desired dummy interface. -/
def dummyD0 : VIface := ⟨"d0", VType.dummy, VState.up, none, none⟩

/-! ## Theorems -/

theorem charsLe_trans : ∀ a b c, charsLe a b = true → charsLe b c = true →
    charsLe a c = true
  | [], _, _, _, _ => rfl
  | _ :: _, [], _, h, _ => absurd h (by simp [charsLe])
  | _ :: _, _ :: _, [], _, h => absurd h (by simp [charsLe])
  | a :: as, b :: bs, c :: cs, h1, h2 => by
    simp only [charsLe, Bool.or_eq_true, Bool.and_eq_true, decide_eq_true_eq,
      beq_iff_eq] at h1 h2 ⊢
    rcases h1 with h1 | ⟨h1e, h1r⟩
    · rcases h2 with h2 | ⟨h2e, h2r⟩
      · exact Or.inl (Nat.lt_trans h1 h2)
      · exact Or.inl (h2e ▸ h1)
    · rcases h2 with h2 | ⟨h2e, h2r⟩
      · exact Or.inl (h1e ▸ h2)
      · exact Or.inr ⟨h1e.trans h2e, charsLe_trans as bs cs h1r h2r⟩

theorem charsLe_total : ∀ a b, charsLe a b = true ∨ charsLe b a = true
  | [], _ => Or.inl rfl
  | _ :: _, [] => Or.inr rfl
  | a :: as, b :: bs => by
    simp only [charsLe, Bool.or_eq_true, Bool.and_eq_true, decide_eq_true_eq,
      beq_iff_eq]
    rcases Nat.lt_trichotomy a.toNat b.toNat with h | h | h
    · exact Or.inl (Or.inl h)
    · rcases charsLe_total as bs with hr | hr
      · exact Or.inl (Or.inr ⟨h, hr⟩)
      · exact Or.inr (Or.inr ⟨h.symm, hr⟩)
    · exact Or.inr (Or.inl h)

theorem charsLe_antisymm : ∀ a b, charsLe a b = true → charsLe b a = true →
    a = b
  | [], [], _, _ => rfl
  | [], _ :: _, _, h => absurd h (by simp [charsLe])
  | _ :: _, [], h, _ => absurd h (by simp [charsLe])
  | a :: as, b :: bs, h1, h2 => by
    simp only [charsLe, Bool.or_eq_true, Bool.and_eq_true, decide_eq_true_eq,
      beq_iff_eq] at h1 h2
    rcases h1 with h1 | ⟨h1e, h1r⟩
    · rcases h2 with h2 | ⟨h2e, h2r⟩
      · exact absurd h2 (Nat.lt_asymm h1)
      · exfalso; omega
    · rcases h2 with h2 | ⟨h2e, h2r⟩
      · exfalso; omega
      · have hc : a = b := Char.ext (UInt32.ext h1e)
        rw [hc, charsLe_antisymm as bs h1r h2r]

theorem nameLe_antisymm {s t : String} (h1 : nameLe s t = true)
    (h2 : nameLe t s = true) : s = t :=
  String.ext (charsLe_antisymm _ _ h1 h2)

@[instance] theorem portKeyLe_isTotal : IsTotal TeamPort portKeyLe :=
  ⟨fun a b => charsLe_total a.name.data b.name.data⟩

@[instance] theorem portKeyLe_isTrans : IsTrans TeamPort portKeyLe :=
  ⟨fun a b c => charsLe_trans a.name.data b.name.data c.name.data⟩

namespace TeamIface

/-- Closed form of `sort_port` as a case split on the raw dictionary. -/
theorem sort_port_eq (r : TeamRaw) :
    sort_port r = match r.team with
      | none => r
      | some c =>
        match c.ports with
        | none => r
        | some l => { r with team := some { c with ports := some (l.insertionSort portKeyLe) } } := by
  rcases r with ⟨_ | ⟨_ | l, crest⟩, rest⟩
  · simp [sort_port, port, portEntries]
  · simp [sort_port, port, portEntries]
  · cases l <;> simp [sort_port, port, portEntries, List.insertionSort]

/-- Closed form of `remove_port` as a case split on the raw dictionary. -/
theorem remove_port_eq (r : TeamRaw) (n : String) :
    remove_port r n = match r.team with
      | none => r
      | some c =>
        match c.ports with
        | none => r
        | some l =>
          { r with team := some { c with ports := some ((l.filter fun s => s.name != n).insertionSort portKeyLe) } } := by
  rcases r with ⟨_ | ⟨_ | l, crest⟩, rest⟩
  · simp [remove_port, sort_port, port, portEntries]
  · simp [remove_port, sort_port, port, portEntries]
  · cases l with
    | nil => simp [remove_port, sort_port, port, portEntries, List.insertionSort]
    | cons a l' =>
      simp only [remove_port, port, portEntries, Option.getD_some, List.map_cons,
        List.isEmpty_cons, Bool.false_eq_true, if_false]
      rw [sort_port_eq]

/-- The port entries after `remove_port`: the old entries with every
`port_name`-named descriptor dropped, re-sorted by name. -/
theorem portEntries_remove_port (r : TeamRaw) (n : String) :
    portEntries (remove_port r n)
      = ((portEntries r).filter fun s => s.name != n).insertionSort portKeyLe := by
  rw [remove_port_eq]
  rcases r with ⟨_ | ⟨_ | l, crest⟩, rest⟩ <;>
    simp [portEntries, List.insertionSort]

/-- If the port list is already sorted by name, `sort_port` is the identity. -/
theorem sort_port_of_sorted (r : TeamRaw)
    (h : (portEntries r).Sorted portKeyLe) : sort_port r = r := by
  rcases r with ⟨_ | ⟨_ | l, crest⟩, rest⟩
  · rw [sort_port_eq]
  · rw [sort_port_eq]
  · rw [sort_port_eq]
    show (⟨some ⟨some (l.insertionSort portKeyLe), crest⟩, rest⟩ : TeamRaw) = _
    rw [List.Sorted.insertionSort_eq (by simpa [portEntries] using h)]

/-- Removing a name that matches no entry only re-sorts the port list. -/
theorem remove_port_eq_sort_port (r : TeamRaw) (n : String)
    (h : (portEntries r).filter (fun s => s.name != n) = portEntries r) :
    remove_port r n = sort_port r := by
  rcases r with ⟨_ | ⟨_ | l, crest⟩, rest⟩
  · rw [remove_port_eq, sort_port_eq]
  · rw [remove_port_eq, sort_port_eq]
  · rw [remove_port_eq, sort_port_eq]
    show (⟨some ⟨some ((l.filter fun s => s.name != n).insertionSort portKeyLe), crest⟩, rest⟩ : TeamRaw) = _
    rw [show (l.filter fun s => s.name != n) = l from by simpa [portEntries] using h]

/-- After any `remove_port` the remaining port names are sorted. -/
theorem port_remove_port_sorted (r : TeamRaw) (n : String) :
    (port (remove_port r n)).Pairwise (fun s t => nameLe s t = true) := by
  rw [port, portEntries_remove_port, List.pairwise_map]
  exact List.sorted_insertionSort portKeyLe _

theorem remove_port_setPorts (r : TeamRaw) (l : List TeamPort) (n : String) :
    remove_port (setPorts r l) n
      = setPorts r ((l.filter fun s => s.name != n).insertionSort portKeyLe) := by
  rcases r with ⟨_ | ⟨ports, crest⟩, rest⟩ <;> simp [setPorts, remove_port_eq]

end TeamIface

/-- C2 counterexample: `"c"` is not a member of the port list, yet
`remove_port` changes the raw configuration (the port-list order), because it
unconditionally re-sorts the ports on exit. -/
theorem remove_port_nonmember_not_noop :
    "c" ∉ TeamIface.port rawUnsorted
      ∧ TeamIface.remove_port rawUnsorted "c" ≠ rawUnsorted := by decide

/-- C2 (amended): removing a non-member port name leaves the raw configuration
unchanged except that the port list is re-sorted by name; in particular it is
a strict no-op whenever the port list was already sorted by name. -/
theorem remove_port_nonmember_sorts_only (r : TeamRaw) (n : String)
    (h : n ∉ TeamIface.port r) :
    TeamIface.remove_port r n = TeamIface.sort_port r
      ∧ ((TeamIface.port r).Pairwise (fun s t => nameLe s t = true) →
          TeamIface.remove_port r n = r) := by
  have hfilter : (TeamIface.portEntries r).filter (fun s => s.name != n)
      = TeamIface.portEntries r := by
    apply List.filter_eq_self.mpr
    intro s hs
    simp only [bne_iff_ne, ne_eq]
    intro heq
    exact h (heq ▸ List.mem_map_of_mem TeamPort.name hs)
  refine ⟨TeamIface.remove_port_eq_sort_port r n hfilter, fun hs => ?_⟩
  rw [TeamIface.remove_port_eq_sort_port r n hfilter]
  apply TeamIface.sort_port_of_sorted
  rw [TeamIface.port] at hs
  have hs' := List.pairwise_map.mp hs
  exact hs'

theorem remove_port_nonmember_sorts_only_witness :
    TeamIface.remove_port rawSorted "c" = TeamIface.sort_port rawSorted
      ∧ ((TeamIface.port rawSorted).Pairwise (fun s t => nameLe s t = true) →
          TeamIface.remove_port rawSorted "c" = rawSorted) :=
  remove_port_nonmember_sorts_only rawSorted "c" (by decide)

/-- C3 counterexample: two team states that differ only in the order of their
(duplicate-named) port entries stay different after `remove_port`, because
the stable sort keeps equal-named entries in their original relative order. -/
theorem remove_port_order_counterexample :
    (TeamIface.portEntries rawDupA).Perm (TeamIface.portEntries rawDupB)
      ∧ rawDupA.rest = rawDupB.rest
      ∧ TeamIface.remove_port rawDupA "b" ≠ TeamIface.remove_port rawDupB "b" := by
  decide

/-- C3 (amended): after `remove_port` the remaining port entries are sorted by
port name, whatever order they were in; and two team states that differ only
in the order of their port lists become equal after any removal, provided the
port names are pairwise distinct (with duplicate names the stable sort keeps
the original relative order, see the counterexample). -/
theorem remove_port_canonicalizes (r : TeamRaw) (l1 l2 : List TeamPort)
    (n : String) (hperm : l1.Perm l2) (hnd : (l1.map TeamPort.name).Nodup) :
    (∀ r' : TeamRaw, (TeamIface.port (TeamIface.remove_port r' n)).Pairwise
        (fun s t => nameLe s t = true))
      ∧ TeamIface.remove_port (TeamIface.setPorts r l1) n
          = TeamIface.remove_port (TeamIface.setPorts r l2) n := by
  refine ⟨fun r' => TeamIface.port_remove_port_sorted r' n, ?_⟩
  rw [TeamIface.remove_port_setPorts, TeamIface.remove_port_setPorts]
  congr 1
  have hperm' : ((l1.filter fun s => s.name != n).insertionSort portKeyLe).Perm
      ((l2.filter fun s => s.name != n).insertionSort portKeyLe) :=
    (List.perm_insertionSort _ _).trans ((hperm.filter _).trans
      (List.perm_insertionSort _ _).symm)
  have key : ∀ s : List TeamPort, (s.map TeamPort.name).Nodup →
      s.Sorted portKeyLe →
      s.Sorted (fun p q => portKeyLe p q ∧ p.name ≠ q.name) := by
    intro s hn hp
    exact hp.and (List.pairwise_map.mp hn)
  haveI : IsAntisymm TeamPort (fun p q => portKeyLe p q ∧ p.name ≠ q.name) :=
    ⟨fun a b h1 h2 => absurd (nameLe_antisymm h1.1 h2.1) h1.2⟩
  have hnd2 : (l2.map TeamPort.name).Nodup := ((hperm.map _).nodup_iff).mp hnd
  have hnds1 : (((l1.filter fun s => s.name != n).insertionSort
      portKeyLe).map TeamPort.name).Nodup :=
    (((List.perm_insertionSort portKeyLe _).map TeamPort.name).nodup_iff).mpr
      (List.Nodup.sublist (List.Sublist.map TeamPort.name
        (List.filter_sublist l1)) hnd)
  have hnds2 : (((l2.filter fun s => s.name != n).insertionSort
      portKeyLe).map TeamPort.name).Nodup :=
    (((List.perm_insertionSort portKeyLe _).map TeamPort.name).nodup_iff).mpr
      (List.Nodup.sublist (List.Sublist.map TeamPort.name
        (List.filter_sublist l2)) hnd2)
  exact List.eq_of_perm_of_sorted hperm'
    (key _ hnds1 (List.sorted_insertionSort portKeyLe _))
    (key _ hnds2 (List.sorted_insertionSort portKeyLe _))

theorem remove_port_canonicalizes_witness :
    (TeamIface.port (TeamIface.remove_port rawUnsorted "b")).Pairwise
        (fun s t => nameLe s t = true)
      ∧ TeamIface.remove_port (TeamIface.setPorts rawBase [⟨"b", 0⟩, ⟨"a", 1⟩]) "b"
          = TeamIface.remove_port (TeamIface.setPorts rawBase [⟨"a", 1⟩, ⟨"b", 0⟩]) "b" := by
  have h := remove_port_canonicalizes rawBase [⟨"b", 0⟩, ⟨"a", 1⟩]
    [⟨"a", 1⟩, ⟨"b", 0⟩] "b" (by decide) (by decide)
  exact ⟨h.1 rawUnsorted, h.2⟩

/-- C4: `remove_port` is idempotent: a second removal of the same name leaves
the raw configuration exactly as after the first. -/
theorem remove_port_idempotent (r : TeamRaw) (n : String) :
    TeamIface.remove_port (TeamIface.remove_port r n) n
      = TeamIface.remove_port r n := by
  have key : ∀ l : List TeamPort,
      ((((l.filter fun s => s.name != n).insertionSort portKeyLe).filter
          fun s => s.name != n).insertionSort portKeyLe)
        = (l.filter fun s => s.name != n).insertionSort portKeyLe := by
    intro l
    have h1 : (((l.filter fun s => s.name != n).insertionSort portKeyLe).filter
        fun s => s.name != n)
        = (l.filter fun s => s.name != n).insertionSort portKeyLe := by
      apply List.filter_eq_self.mpr
      intro a ha
      have hp := List.of_mem_filter ((List.perm_insertionSort portKeyLe _).subset ha)
      exact hp
    rw [h1]
    exact List.Sorted.insertionSort_eq (List.sorted_insertionSort portKeyLe _)
  rcases r with ⟨_ | ⟨_ | l, crest⟩, rest⟩
  · simp [TeamIface.remove_port_eq]
  · simp [TeamIface.remove_port_eq]
  · simp only [TeamIface.remove_port_eq]
    rw [key l]

/-- C10: after `remove_port n` the name `n` no longer occurs among the port
names, and the remaining entries are exactly the old entries whose name
differs from `n` (up to the re-sorting permutation), duplicates included. -/
theorem remove_port_removes_all (r : TeamRaw) (n : String) :
    n ∉ TeamIface.port (TeamIface.remove_port r n)
      ∧ (TeamIface.portEntries (TeamIface.remove_port r n)).Perm
          ((TeamIface.portEntries r).filter fun s => s.name != n) := by
  constructor
  · rw [TeamIface.port, TeamIface.portEntries_remove_port]
    intro hmem
    rcases List.mem_map.mp hmem with ⟨s, hs, hname⟩
    have hp := List.of_mem_filter ((List.perm_insertionSort portKeyLe _).subset hs)
    rw [hname] at hp
    simp at hp
  · rw [TeamIface.portEntries_remove_port]
    exact List.perm_insertionSort portKeyLe _

/-- C9: a team raw state lacking the `team` subtree or the `ports` subtree is
valid: `port` is empty, `is_controller` is true, and `sort_port` and
`remove_port` return the state unchanged. -/
theorem empty_team_ok (r : TeamRaw)
    (h : r.team = none ∨ ∃ c, r.team = some c ∧ c.ports = none) :
    TeamIface.port r = [] ∧ TeamIface.is_controller r = true
      ∧ TeamIface.sort_port r = r ∧ ∀ n, TeamIface.remove_port r n = r := by
  have hport : TeamIface.portEntries r = [] := by
    rcases h with h | ⟨c, hc, hp⟩
    · simp [TeamIface.portEntries, h]
    · simp [TeamIface.portEntries, hc, hp]
  have hsort : TeamIface.sort_port r = r := by
    simp [TeamIface.sort_port, TeamIface.port, hport]
  refine ⟨by simp [TeamIface.port, hport], rfl, hsort, fun n => ?_⟩
  simp [TeamIface.remove_port, TeamIface.port, hport, hsort]

theorem empty_team_ok_witness :
    TeamIface.port rawNoPorts = [] ∧ TeamIface.is_controller rawNoPorts = true
      ∧ TeamIface.sort_port rawNoPorts = rawNoPorts
      ∧ TeamIface.remove_port rawNoPorts "a" = rawNoPorts := by
  have h := empty_team_ok rawNoPorts (Or.inr ⟨⟨none, 2⟩, rfl, rfl⟩)
  exact ⟨h.1, h.2.1, h.2.2.1, h.2.2.2 "a"⟩

/-- Looking an interface up in the merged state is looking it up in current
and merging the desired document for it, because the merge preserves names. -/
theorem find?_mergeState (desired : List DesiredIface)
    (current : List CurrentIface) (nm : String) :
    (mergeState desired current).find? (fun x => x.name == nm)
      = (current.find? (fun x => x.name == nm)).map fun c =>
          match desired.find? (fun x => x.name == c.name) with
          | some dd => mergeIfaceFields dd c
          | none => c := by
  induction current with
  | nil => rfl
  | cons c cs ih =>
    have hname : (match desired.find? (fun x : DesiredIface => x.name == c.name) with
        | some dd => mergeIfaceFields dd c
        | none => c).name = c.name := by
      rcases desired.find? (fun x : DesiredIface => x.name == c.name) with _ | dd
      · rfl
      · rfl
    have hcons : mergeState desired (c :: cs)
        = (match desired.find? (fun x : DesiredIface => x.name == c.name) with
            | some dd => mergeIfaceFields dd c
            | none => c) :: mergeState desired cs := rfl
    rw [hcons]
    by_cases hc : (c.name == nm) = true
    · simp [List.find?_cons, hname, hc]
    · simp [List.find?_cons, hname, hc, ih]

/-- C1: partial-update law.  If an interface is present in current state and
the desired document for it specifies only the field `F`, then the merged
target record agrees with the current record on every field other than `F`. -/
theorem merge_partial_update (desired : List DesiredIface)
    (current : List CurrentIface) (nm : String) (c : CurrentIface)
    (d : DesiredIface) (F : IfaceField)
    (hc : current.find? (fun x => x.name == nm) = some c)
    (hd : desired.find? (fun x => x.name == nm) = some d)
    (honly : ∀ g, g ≠ F → d.fields g = none) :
    ∃ m, (mergeState desired current).find? (fun x => x.name == nm) = some m
      ∧ ∀ g, g ≠ F → m.fields g = c.fields g := by
  have hcn : c.name = nm := by
    have hp := List.find?_some hc
    simpa using hp
  refine ⟨mergeIfaceFields d c, ?_, ?_⟩
  · rw [find?_mergeState, hc]
    simp [hcn, hd]
  · intro g hg
    simp [mergeIfaceFields, honly g hg]

theorem merge_partial_update_witness :
    ∃ m, (mergeState [desiredEth0] [currentEth0]).find?
        (fun x => x.name == "eth0") = some m
      ∧ ∀ g, g ≠ IfaceField.mtu → m.fields g = currentEth0.fields g :=
  merge_partial_update [desiredEth0] [currentEth0] "eth0" currentEth0
    desiredEth0 IfaceField.mtu rfl rfl
    (fun g hg => by simp [desiredEth0, hg])

/-- A name absent from a list's names makes `any` on name equality false. -/
theorem any_name_eq_false {l : List VIface} {p : String}
    (h : p ∉ l.map VIface.name) :
    l.any (fun w : VIface => w.name == p) = false := by
  rw [List.any_eq_false]
  intro w hw
  simp only [beq_iff_eq]
  intro heq
  exact h (heq ▸ List.mem_map_of_mem VIface.name hw)

/-- A name absent from a list's names makes `find?` on name equality none. -/
theorem find?_name_eq_none {l : List VIface} {p : String}
    (h : p ∉ l.map VIface.name) :
    l.find? (fun w : VIface => w.name == p) = none := by
  rw [List.find?_eq_none]
  intro w hw
  simp only [beq_iff_eq]
  intro heq
  exact h (heq ▸ List.mem_map_of_mem VIface.name hw)

/-- The merge preserves the set of names mentioned by the desired document. -/
theorem mergeDesired_names (desired current : List VIface) :
    (mergeDesired desired current).map VIface.name = desired.map VIface.name := by
  rw [mergeDesired, List.map_map]
  apply List.map_congr_left
  intro d _
  show (match current.find? (fun c : VIface => c.name == d.name) with
      | some c => mergeVIface d c
      | none => d).name = d.name
  rcases current.find? (fun c : VIface => c.name == d.name) with _ | c
  · rfl
  · rfl

/-- An implicit peer entry always carries a name the merged desired entries
do not mention. -/
theorem implicitPeer_some {merged : List VIface} {v w : VIface}
    (h : implicitPeer merged v = some w) :
    w.name ∉ merged.map VIface.name := by
  unfold implicitPeer at h
  split at h
  · split at h
    · exact absurd h (by simp)
    · rename_i hany
      simp only [Bool.not_eq_true] at hany
      rw [← Option.some_inj.mp h]
      intro hmem
      rcases List.mem_map.mp hmem with ⟨x, hx, hxn⟩
      have hxp := List.any_eq_false.mp hany x hx
      simp only [minimalPeer] at hxn
      exact hxp (by simp [hxn])
  · exact absurd h (by simp)

/-- C5 (amended): for a desired up-state veth whose peer is not otherwise
mentioned in the desired state, with neither the veth nor the peer present in
current state, planning produces CREATE entries for both the veth and the
minimal implicit peer; and implicit entries never shadow an explicit one
(every acted-on entry is either a merged desired entry or carries a name the
desired state does not mention). -/
theorem plan_veth_implicit_peer (desired current : List VIface) (v : VIface)
    (p : String) (hv : v ∈ desired) (ht : v.vtype = VType.veth)
    (hp : v.peer = some p) (hst : v.vstate = VState.up)
    (hpd : p ∉ desired.map VIface.name)
    (hvc : v.name ∉ current.map VIface.name)
    (hpc : p ∉ current.map VIface.name) :
    Change.mk ChangeKind.create v ∈ planChanges desired current
      ∧ Change.mk ChangeKind.create (minimalPeer p) ∈ planChanges desired current
      ∧ ∀ w ∈ changedIfaces desired current,
          w ∈ mergeDesired desired current
            ∨ w.name ∉ (mergeDesired desired current).map VIface.name := by
  have hvm : v ∈ mergeDesired desired current := by
    apply List.mem_map.mpr
    refine ⟨v, hv, ?_⟩
    rw [find?_name_eq_none hvc]
  have hpm : p ∉ (mergeDesired desired current).map VIface.name := by
    rw [mergeDesired_names]
    exact hpd
  have hvchanged : v ∈ changedIfaces desired current :=
    List.mem_append_left _ hvm
  have hpchanged : minimalPeer p ∈ changedIfaces desired current := by
    apply List.mem_append_right
    apply List.mem_filterMap.mpr
    refine ⟨v, hvm, ?_⟩
    simp [implicitPeer, ht, hp, any_name_eq_false hpm]
  refine ⟨?_, ?_, ?_⟩
  · apply List.mem_map.mpr
    refine ⟨v, hvchanged, ?_⟩
    simp [hst, any_name_eq_false hvc]
  · apply List.mem_map.mpr
    refine ⟨minimalPeer p, hpchanged, ?_⟩
    simp [minimalPeer, any_name_eq_false hpc]
  · intro w hw
    rcases List.mem_append.mp hw with hw | hw
    · exact Or.inl hw
    · rcases List.mem_filterMap.mp hw with ⟨u, _, hfu⟩
      exact Or.inr (implicitPeer_some hfu)

/-- C5 counterexample: the desired veth's peer is not mentioned in the
desired state, yet the plan contains no CREATE entry for the veth, because
the veth already exists in current state (the change is a MODIFY). -/
theorem plan_veth_create_counterexample :
    vethV1 ∈ [vethV1] ∧ vethV1.vtype = VType.veth ∧ vethV1.peer = some "v2"
      ∧ "v2" ∉ [vethV1].map VIface.name
      ∧ Change.mk ChangeKind.create vethV1 ∉ planChanges [vethV1] [vethV1] := by
  decide

theorem plan_veth_implicit_peer_witness :
    Change.mk ChangeKind.create vethV1 ∈ planChanges [vethV1] []
      ∧ Change.mk ChangeKind.create (minimalPeer "v2") ∈ planChanges [vethV1] []
      ∧ ∀ w ∈ changedIfaces [vethV1] [],
          w ∈ mergeDesired [vethV1] []
            ∨ w.name ∉ (mergeDesired [vethV1] []).map VIface.name :=
  plan_veth_implicit_peer [vethV1] [] vethV1 "v2" (by decide) (by decide)
    (by decide) (by decide) (by decide) (by decide) (by decide)

/-- Whenever validation of the plan fails, `reconcile` returns the
validation error, leaves the live state untouched and makes no backend
call. -/
theorem reconcile_of_invalid (b : Backend) (desired current : List VIface)
    (h : validateState desired current ≠ []) :
    (reconcile b desired current).1
        = RResult.validationError (validateState desired current)
      ∧ (reconcile b desired current).2.1 = current
      ∧ (reconcile b desired current).2.2 = [] := by
  have hne : (validateState desired current).isEmpty = false :=
    List.isEmpty_eq_false.mpr h
  simp [reconcile, hne]

/-- C6 (amended): a desired veth that is being configured (state not absent),
has no peer configured and is not present in current state (so the merge
cannot inherit a peer) is rejected with a validation error, with no backend
call made and the live state untouched. -/
theorem veth_without_peer_rejected (b : Backend) (desired current : List VIface)
    (v : VIface) (hv : v ∈ desired) (ht : v.vtype = VType.veth)
    (hp : v.peer = none) (hst : v.vstate ≠ VState.absent)
    (hvc : v.name ∉ current.map VIface.name) :
    (reconcile b desired current).1
        = RResult.validationError (validateState desired current)
      ∧ validateState desired current ≠ []
      ∧ (reconcile b desired current).2.1 = current
      ∧ (reconcile b desired current).2.2 = [] := by
  have hvm : v ∈ mergeDesired desired current := by
    apply List.mem_map.mpr
    refine ⟨v, hv, ?_⟩
    rw [find?_name_eq_none hvc]
  have herr : "veth requires a peer" ∈ validateState desired current := by
    apply List.mem_flatMap.mpr
    refine ⟨v, List.mem_append_left _ hvm, ?_⟩
    apply List.mem_append_left
    simp only [peerErrs, ht, hp]
    rw [if_neg hst]
    exact List.mem_singleton_self _
  have hne := List.ne_nil_of_mem herr
  obtain ⟨h1, h2, h3⟩ := reconcile_of_invalid b desired current hne
  exact ⟨h1, hne, h2, h3⟩

theorem veth_without_peer_rejected_witness :
    (reconcile bAllOk [vethNoPeer] []).1
        = RResult.validationError (validateState [vethNoPeer] [])
      ∧ validateState [vethNoPeer] [] ≠ []
      ∧ (reconcile bAllOk [vethNoPeer] []).2.1 = []
      ∧ (reconcile bAllOk [vethNoPeer] []).2.2 = [] :=
  veth_without_peer_rejected bAllOk [vethNoPeer] [] vethNoPeer (by decide)
    (by decide) (by decide) (by decide) (by decide)

/-- C6 counterexample: a desired veth with no peer configured applied over a
current state in which the interface already exists: the merge carries the
peer over from current and reconciliation succeeds instead of failing
(mirrors `test_change_veth_with_veth_type_without_veth_conf`). -/
theorem veth_without_peer_counterexample :
    vethNoPeer.vtype = VType.veth ∧ vethNoPeer.peer = none
      ∧ isValidationError (reconcile bAllOk [vethNoPeer] [curVeth1, curPeer1]).1
          = false
      ∧ isOk (reconcile bAllOk [vethNoPeer] [curVeth1, curPeer1]).1 = true := by
  decide

/-- C7: a desired interface whose mtu lies outside its type's admissible
range is rejected by the validator with a validation error, no backend call
and the live state untouched, regardless of the other entries of the
document. -/
theorem mtu_out_of_range_rejected (b : Backend) (desired current : List VIface)
    (v : VIface) (m : Nat) (hv : v ∈ desired) (hm : v.mtu = some m)
    (hout : m < mtuMin v.vtype ∨ mtuMax v.vtype < m) :
    (reconcile b desired current).1
        = RResult.validationError (validateState desired current)
      ∧ validateState desired current ≠ []
      ∧ (reconcile b desired current).2.1 = current
      ∧ (reconcile b desired current).2.2 = [] := by
  obtain ⟨v', hv'mem, hv'type, hv'mtu⟩ :
      ∃ v' ∈ mergeDesired desired current,
        v'.vtype = v.vtype ∧ v'.mtu = some m := by
    refine ⟨_, List.mem_map.mpr ⟨v, hv, rfl⟩, ?_⟩
    rcases current.find? (fun c : VIface => c.name == v.name) with _ | c
    · exact ⟨rfl, hm⟩
    · exact ⟨rfl, by simp [mergeVIface, hm, Option.orElse]⟩
  have herr : "mtu out of range" ∈ validateState desired current := by
    apply List.mem_flatMap.mpr
    refine ⟨v', List.mem_append_left _ hv'mem, ?_⟩
    apply List.mem_append_right
    simp only [mtuErrs, hv'mtu, hv'type]
    rw [if_pos hout]
    exact List.mem_singleton_self _
  have hne := List.ne_nil_of_mem herr
  obtain ⟨h1, h2, h3⟩ := reconcile_of_invalid b desired current hne
  exact ⟨h1, hne, h2, h3⟩

theorem mtu_out_of_range_rejected_witness :
    (reconcile bAllOk [vethBadMtu] []).1
        = RResult.validationError (validateState [vethBadMtu] [])
      ∧ validateState [vethBadMtu] [] ≠ []
      ∧ (reconcile bAllOk [vethBadMtu] []).2.1 = []
      ∧ (reconcile bAllOk [vethBadMtu] []).2.2 = [] :=
  mtu_out_of_range_rejected bAllOk [vethBadMtu] [] vethBadMtu 32 (by decide)
    (by decide) (by decide)

/-- Case analysis of the post-apply phase: it never yields a validation
error; on any non-success it issues a rollback call; and the results that
report a successful rollback come with the captured pre-apply state. -/
theorem afterApply_cases (b : Backend) (live0 live1 : List VIface)
    (calls : List BCall) (applied : Bool) :
    isValidationError (afterApply b live0 live1 calls applied).1 = false
      ∧ (isOk (afterApply b live0 live1 calls applied).1 = false →
          BCall.rollback ∈ (afterApply b live0 live1 calls applied).2.2)
      ∧ ((afterApply b live0 live1 calls applied).1 = RResult.backendError true
            ∨ (afterApply b live0 live1 calls applied).1
                = RResult.verificationError true →
          (afterApply b live0 live1 calls applied).2.1 = live0) := by
  cases applied <;> cases hv : b.verifyOk <;> cases hr : b.rollbackOk <;>
    simp [afterApply, isValidationError, isOk, hv, hr]

/-- C8 (amended): a validation-error return implies zero backend calls and an
untouched live state; any other error return implies a rollback was
attempted; and a result reporting a successful rollback (backend or
verification error with the rolled-back flag) implies the live state equals
the state captured before the call.  (When the rollback itself fails the
distinct rollback error is returned and the live state may differ, see the
counterexample.) -/
theorem reconcile_atomicity (b : Backend) (desired live0 : List VIface) :
    (isValidationError (reconcile b desired live0).1 = true →
        (reconcile b desired live0).2.2 = []
          ∧ (reconcile b desired live0).2.1 = live0)
      ∧ (isValidationError (reconcile b desired live0).1 = false →
          isOk (reconcile b desired live0).1 = false →
          BCall.rollback ∈ (reconcile b desired live0).2.2)
      ∧ ((reconcile b desired live0).1 = RResult.backendError true
            ∨ (reconcile b desired live0).1 = RResult.verificationError true →
          (reconcile b desired live0).2.1 = live0) := by
  by_cases hval : (validateState desired live0).isEmpty = true
  · have hre : reconcile b desired live0
        = afterApply b live0 (runApply b live0 (planChanges desired live0)).1
            (BCall.checkpoint :: (runApply b live0 (planChanges desired live0)).2.1)
            (runApply b live0 (planChanges desired live0)).2.2 := by
      simp [reconcile, hval]
    rw [hre]
    obtain ⟨h1, h2, h3⟩ := afterApply_cases b live0
      (runApply b live0 (planChanges desired live0)).1
      (BCall.checkpoint :: (runApply b live0 (planChanges desired live0)).2.1)
      (runApply b live0 (planChanges desired live0)).2.2
    refine ⟨fun hcontra => ?_, fun _ h => h2 h, h3⟩
    rw [h1] at hcontra
    exact absurd hcontra (by decide)
  · have hne : validateState desired live0 ≠ [] := by
      intro hnil
      rw [hnil] at hval
      exact hval rfl
    obtain ⟨h1, h2, h3⟩ := reconcile_of_invalid b desired live0 hne
    refine ⟨fun _ => ⟨h3, h2⟩, fun hcontra _ => ?_, fun hcontra => ?_⟩
    · rw [h1] at hcontra
      simp [isValidationError] at hcontra
    · rw [h1] at hcontra
      rcases hcontra with hc | hc
      · exact RResult.noConfusion hc
      · exact RResult.noConfusion hc

/-- C8 counterexample: with a backend whose verification and rollback both
fail, reconcile returns a non-validation error (the distinct rollback error),
yet the live state differs from the current state captured before the call
(which was empty). -/
theorem reconcile_atomicity_counterexample :
    isValidationError (reconcile bNoRollback [dummyD0] []).1 = false
      ∧ isOk (reconcile bNoRollback [dummyD0] []).1 = false
      ∧ (reconcile bNoRollback [dummyD0] []).2.1 ≠ [] := by decide

theorem reconcile_atomicity_witness :
    (reconcile bAllOk [vethNoPeer] []).2.2 = []
      ∧ (reconcile bAllOk [vethNoPeer] []).2.1 = [] := by
  have h := reconcile_atomicity bAllOk [vethNoPeer] []
  exact h.1 (by decide)

end Nmstate
